import Mathlib

/-!
Verification development for the terminal-session subsystem of the
repository: the ANSI stripper, the Claude state classifier
(`src/src-tauri/src/pty/claude_parser.rs`), the semantic block segmenter
(`src/src-tauri/src/pty/semantic_parser.rs`), the per-session output
reader loop and the PTY registry (`src/src-tauri/src/pty/mod.rs`).

Text is modelled as `List Char` (Rust `String` / `&str` code points).
Byte positions are tracked explicitly through `Char.utf8Size`, because the
source indexes and drains its buffers by UTF-8 byte offset; an operation
that panics in Rust (byte index not on a character boundary) is modelled
by an `Option` result, `none` meaning the panic.
-/

/-- Characters of a string literal, the `List Char` view used throughout. -/
def cs (s : String) : List Char := s.data

/-- Whitespace predicate modelling Rust `char::is_whitespace` (the inputs
treated here are ASCII, for which the two coincide). -/
def isWS (c : Char) : Bool := c.isWhitespace

/-- Rust `str::trim_start`. -/
def rustTrimStart (l : List Char) : List Char := l.dropWhile isWS

/-- Rust `str::trim_end`. -/
def rustTrimEnd (l : List Char) : List Char := (l.reverse.dropWhile isWS).reverse

/-- Rust `str::trim`. -/
def rustTrim (l : List Char) : List Char := rustTrimEnd (rustTrimStart l)

/-- UTF-8 byte length of a character list, Rust `str::len`. -/
def utf8Len : List Char → Nat
  | [] => 0
  | c :: l => c.utf8Size + utf8Len l

/-- Rust `str::contains` with a string pattern: some contiguous substring match. -/
def containsSub (hay pat : List Char) : Bool := hay.tails.any fun t => pat.isPrefixOf t

/-- Rust `str::starts_with`. -/
def startsWithL (l p : List Char) : Bool := p.isPrefixOf l

/-- Rust `str::ends_with`. -/
def endsWithL (l p : List Char) : Bool := p.isSuffixOf l

/-- Remove the first `k` UTF-8 bytes of a text, as Rust `String::drain(..k)`
(keeping the tail) or byte-slicing `s[k..]` does; `none` models the Rust
panic raised when byte `k` is not on a character boundary (or past the end). -/
def drainBytes : Nat → List Char → Option (List Char)
  | 0, l => some l
  | _ + 1, [] => none
  | k + 1, c :: l => if c.utf8Size ≤ k + 1 then drainBytes (k + 1 - c.utf8Size) l else none

/-- Rust `char::is_ascii_alphabetic`. -/
def isAsciiAlphabetic (c : Char) : Bool := ('A' ≤ c && c ≤ 'Z') || ('a' ≤ c && c ≤ 'z')

/-- State machine of `strip_ansi_codes` (identical in both parser files).
Mode `false` copies characters; on ESC it drops the ESC, and if a `[`
follows it switches to mode `true`, which discards characters up to and
including the first ASCII-alphabetic one. -/
def stripAnsiGo : Bool → List Char → List Char
  | _, [] => []
  | true, c :: rest =>
    if isAsciiAlphabetic c then stripAnsiGo false rest else stripAnsiGo true rest
  | false, '\x1b' :: '[' :: rest => stripAnsiGo true rest
  | false, '\x1b' :: rest => stripAnsiGo false rest
  | false, c :: rest => c :: stripAnsiGo false rest

/-- Rust `strip_ansi_codes`. -/
def stripAnsi (l : List Char) : List Char := stripAnsiGo false l

/-- Rust `str::split_inclusive('\n')`: pieces keep their terminating newline;
no empty trailing piece is produced. -/
def splitInclNl : List Char → List (List Char)
  | [] => []
  | '\n' :: rest => ['\n'] :: splitInclNl rest
  | c :: rest =>
    match splitInclNl rest with
    | [] => [[c]]
    | p :: ps => (c :: p) :: ps

/-- The per-piece trimming of Rust `str::lines`: drop a terminating `'\n'`,
and only then also one `'\r'` directly before it. -/
def trimNewline (l : List Char) : List Char :=
  if endsWithL l (cs "\n") then
    let l2 := l.dropLast
    if endsWithL l2 (cs "\r") then l2.dropLast else l2
  else l

/-- Rust `str::lines`. -/
def rustLines (l : List Char) : List (List Char) := (splitInclNl l).map trimNewline

/-! ## Claude state classifier (`claude_parser.rs`) -/

/-- Rust enum `ClaudeState`. -/
inductive ClaudeState where
  | Idle
  | Thinking
  | Writing
  | ToolUse (name : List Char)
  | Asking
  | Error
  | Complete
deriving DecidableEq, Repr

/-- Rust struct `ClaudeStateInfo`; `progress` is never written by the source. -/
structure ClaudeStateInfo where
  state : ClaudeState
  tool_name : Option (List Char)
  question : Option (List Char)
  progress : Option Nat
  awaiting_input : Bool
deriving DecidableEq, Repr

/-- `ClaudeStateInfo::default()`. -/
def initClaudeInfo : ClaudeStateInfo := ⟨ .Idle, none, none, none, false ⟩

/-- Rust struct `ClaudeStateParser`. -/
structure ClaudeParserState where
  buffer : List Char
  current_state : ClaudeStateInfo
  in_claude_block : Bool
  newline_count : Nat
deriving DecidableEq, Repr

/-- `ClaudeStateParser::new()`. -/
def initClaude : ClaudeParserState := ⟨ [], initClaudeInfo, false, 0 ⟩

/-- The `(pattern, name)` table of `ClaudeStateParser::detect_tool_use`. -/
def tool_patterns : List (List Char × List Char) :=
  [ (cs "Read(", cs "Read"), (cs "Edit(", cs "Edit"), (cs "Write(", cs "Write"),
    (cs "Bash(", cs "Bash"), (cs "Glob(", cs "Glob"), (cs "Grep(", cs "Grep"),
    (cs "LS(", cs "List"), (cs "TodoRead", cs "Todo"), (cs "TodoWrite", cs "Todo"),
    (cs "WebFetch", cs "Web"), (cs "WebSearch", cs "Search"), (cs "Task(", cs "Task") ]

/-- `ClaudeStateParser::detect_tool_use`. -/
def detect_tool_use (output : List Char) : Option (List Char) :=
  match tool_patterns.find? (fun p => containsSub output p.1) with
  | some p => some p.2
  | none =>
    if containsSub output (cs "Running:") || containsSub output (cs "Executing:") then
      some (cs "Command")
    else none

/-- The ten braille spinner glyphs tested by the thinking detector. -/
def spinnerChars : List Char :=
  [ '⠋', '⠙', '⠹', '⠸', '⠼', '⠴', '⠦', '⠧',
    '⠇', '⠏' ]

/-- The thinking-detector condition of `ClaudeStateParser::detect_state`. -/
def thinkingCond (co : List Char) : Bool :=
  spinnerChars.any (fun c => containsSub co [c]) ||
  containsSub co (cs "Thinking") || containsSub co (cs "thinking...")

/-- The per-line test of `ClaudeStateParser::detect_question`: a trimmed line
ending in `?` with byte length above 10, or starting with one of the five
request phrases; returns the trimmed line when it matches. -/
def questionLineRule (line : List Char) : Option (List Char) :=
  let trimmed := rustTrim line
  if endsWithL trimmed (cs "?") && decide (utf8Len trimmed > 10) then some trimmed
  else if startsWithL trimmed (cs "Do you want") || startsWithL trimmed (cs "Would you like") ||
      startsWithL trimmed (cs "Should I") || startsWithL trimmed (cs "Can I") ||
      startsWithL trimmed (cs "May I") then some trimmed
  else none

/-- `ClaudeStateParser::detect_question`: scan the last 10 buffered lines,
newest first. -/
def detect_question (buffer : List Char) : Option (List Char) :=
  ((rustLines buffer).reverse.take 10).findSome? questionLineRule

/-- `ClaudeStateParser::detect_prompt` (note: the source right-trims the
buffer first, so the arms ending in a space can never match). -/
def detect_prompt (buffer : List Char) : Bool :=
  let trimmed := rustTrimEnd buffer
  endsWithL trimmed (cs ">") || endsWithL trimmed (cs "$ ") || endsWithL trimmed (cs "% ") ||
  endsWithL trimmed (cs ": ") || containsSub trimmed (cs "Enter your") ||
  containsSub trimmed (cs "Type your")

/-- The completion-detector condition of `detect_state`. -/
def completeCond (co : List Char) : Bool :=
  containsSub co (cs "✓") || containsSub co (cs "Done") ||
  containsSub co (cs "Completed") || containsSub co (cs "finished")

/-- The error-detector condition of `detect_state`; the red-color escape is
tested on the raw (unstripped) chunk. -/
def errorCond (co raw : List Char) : Bool :=
  containsSub co (cs "Error:") || containsSub co (cs "error:") ||
  containsSub co (cs "failed") || containsSub co (cs "Failed") ||
  containsSub raw (cs "\x1b[31m")

/-- The writing-detector condition of `detect_state` (byte length above 50). -/
def writingCond (co : List Char) : Bool :=
  decide (utf8Len co > 50) && !(rustTrim co).isEmpty

/-- The inner prompt-pattern condition of the idle branch of `detect_state`. -/
def idleInner (cb : List Char) : Bool :=
  containsSub cb (cs ">") || endsWithL cb (cs "$ ") || endsWithL cb (cs "% ") ||
  containsSub cb (cs "claude>")

/-- The newline-count update at the top of `detect_state` (`u8::saturating_add`). -/
def updNl (n : Nat) (output : List Char) : Nat :=
  if output.all (fun c => c == '\n' || c == '\r') then min (n + 1) 255 else 0

/-- `ClaudeStateParser::detect_state`, operating on the state whose buffer has
already been updated by `parse`. -/
def detect_state (st : ClaudeParserState) (output : List Char) : ClaudeParserState :=
  let st := { st with newline_count := updNl st.newline_count output }
  let co := stripAnsi output
  let cb := stripAnsi st.buffer
  match detect_tool_use co with
  | some tool =>
    { st with current_state :=
        { st.current_state with state := .ToolUse tool, tool_name := some tool,
                                awaiting_input := false } }
  | none =>
    if thinkingCond co then
      { st with current_state :=
          { st.current_state with state := .Thinking, awaiting_input := false } }
    else
      match detect_question cb with
      | some q =>
        { st with current_state :=
            { st.current_state with state := .Asking, question := some q,
                                    awaiting_input := true } }
      | none =>
        if completeCond co then
          { st with current_state :=
              { st.current_state with state := .Complete, awaiting_input := false } }
        else if errorCond co output then
          { st with current_state :=
              { st.current_state with state := .Error, awaiting_input := false } }
        else if writingCond co then
          { st with current_state :=
              { st.current_state with state := .Writing, awaiting_input := false } }
        else if detect_prompt cb || decide (st.newline_count > 3) then
          if idleInner cb then
            { st with current_state :=
                { st.current_state with state := .Idle, awaiting_input := true,
                                        tool_name := none, question := none } }
          else st
        else st

/-- `ClaudeStateParser::parse`: push the chunk, trim the buffer to the last
2048 bytes (`String::drain`, which panics off a character boundary —
modelled by `none`), reclassify, and report the new info iff the state
changed. -/
def claudeParse (st : ClaudeParserState) (output : List Char) :
    Option (Option ClaudeStateInfo × ClaudeParserState) :=
  let previous := st.current_state.state
  let buf := st.buffer ++ output
  let buf2? := if utf8Len buf > 2048 then drainBytes (utf8Len buf - 2048) buf else some buf
  match buf2? with
  | none => none
  | some buf2 =>
    let st2 := detect_state { st with buffer := buf2 } output
    some (if st2.current_state.state = previous then none else some st2.current_state, st2)

/-- Feed a chunk sequence to one `ClaudeStateParser`, `none` on panic. -/
def runClaudeAux (st : ClaudeParserState) : List (List Char) → Option ClaudeParserState
  | [] => some st
  | c :: rest =>
    match claudeParse st c with
    | none => none
    | some r => runClaudeAux r.2 rest

/-- Feed a chunk sequence to a fresh `ClaudeStateParser`. -/
def runClaude (chunks : List (List Char)) : Option ClaudeParserState :=
  runClaudeAux initClaude chunks

/-! ## Semantic block segmenter (`semantic_parser.rs`) -/

/-- Rust enum `BlockType`. -/
inductive BlockType where
  | Thinking
  | Code (language : Option (List Char))
  | Tool (name : List Char)
  | ToolOutput (name : List Char) (success : Bool)
  | Question
  | Error
  | Text
  | FileContent (path : List Char)
  | Diff (path : Option (List Char))
  | Command (cmd : List Char)
  | CommandOutput (exit_code : Option Int)
deriving DecidableEq, Repr

/-- Rust `std::mem::discriminant` equality on `BlockType`: same variant tag,
payloads ignored. -/
def sameDiscr : BlockType → BlockType → Bool
  | .Thinking, .Thinking => true
  | .Code _, .Code _ => true
  | .Tool _, .Tool _ => true
  | .ToolOutput _ _, .ToolOutput _ _ => true
  | .Question, .Question => true
  | .Error, .Error => true
  | .Text, .Text => true
  | .FileContent _, .FileContent _ => true
  | .Diff _, .Diff _ => true
  | .Command _, .Command _ => true
  | .CommandOutput _, .CommandOutput _ => true
  | _, _ => false

/-- Rust struct `SemanticBlock`. -/
structure SemanticBlock where
  id : Nat
  block_type : BlockType
  content : List Char
  timestamp : Nat
  complete : Bool
  collapsed_default : Bool
deriving DecidableEq, Repr

/-- The source's in-progress block struct; the wall-clock `start_time`
(`SystemTime::now` in the source) is modelled as 0. -/
structure DraftBlock where
  id : Nat
  block_type : BlockType
  content : List Char
  start_time : Nat
deriving DecidableEq, Repr

/-- Rust struct `ParserState` inside `SemanticBlockParser`. -/
structure SemState where
  current_block : Option DraftBlock
  block_counter : Nat
  buffer : List Char
  in_code_fence : Bool
  code_language : Option (List Char)
deriving DecidableEq, Repr

/-- `SemanticBlockParser::new()`. -/
def initSem : SemState := ⟨ none, 0, [], false, none ⟩

/-- The tool-invocation arms of `detect_block_type` (the decorated variants
are the mis-encoded emoji literals of the source, reproduced code point for
code point). -/
def semToolDetect (trimmed : List Char) : Option BlockType :=
  if startsWithL trimmed (cs "Read(") ||
      containsSub trimmed (cs "ðŸ“„ Read(") then
    some (.Tool (cs "Read"))
  else if startsWithL trimmed (cs "Edit(") ||
      containsSub trimmed (cs "âœï¸ Edit(") then
    some (.Tool (cs "Edit"))
  else if startsWithL trimmed (cs "Write(") ||
      containsSub trimmed (cs "ðŸ“ Write(") then
    some (.Tool (cs "Write"))
  else if startsWithL trimmed (cs "Bash(") ||
      containsSub trimmed (cs "ðŸ’» Bash(") then
    some (.Tool (cs "Bash"))
  else if startsWithL trimmed (cs "Glob(") || startsWithL trimmed (cs "Grep(") then
    some (.Tool (if startsWithL trimmed (cs "Glob") then cs "Glob" else cs "Grep"))
  else none

/-- The question arm of `detect_block_type`: note that unlike
`ClaudeStateParser::detect_question` there is no minimum length on
`?`-terminated lines and `Can I` is absent from the phrase list. -/
def semQuestionCond (trimmed : List Char) : Bool :=
  endsWithL trimmed (cs "?") || startsWithL trimmed (cs "Do you want") ||
  startsWithL trimmed (cs "Would you like") || startsWithL trimmed (cs "Should I") ||
  startsWithL trimmed (cs "May I")

/-- The error arm of `detect_block_type`. -/
def semErrorCond (trimmed : List Char) : Bool :=
  startsWithL trimmed (cs "Error:") || startsWithL trimmed (cs "error:") ||
  startsWithL trimmed (cs "Failed:") || containsSub trimmed (cs "âœ—") ||
  containsSub trimmed (cs "âŒ")

/-- The success-marker arm of `detect_block_type`. -/
def semSuccessCond (trimmed : List Char) : Bool :=
  containsSub trimmed (cs "âœ“") || containsSub trimmed (cs "âœ”") ||
  containsSub trimmed (cs "âœ…")

/-- The unified-diff arm of `detect_block_type`. -/
def semDiffCond (trimmed : List Char) : Bool :=
  startsWithL trimmed (cs "+++") || startsWithL trimmed (cs "---") ||
  startsWithL trimmed (cs "@@") ||
  (startsWithL trimmed (cs "+") && !startsWithL trimmed (cs "++")) ||
  (startsWithL trimmed (cs "-") && !startsWithL trimmed (cs "--"))

/-- The command arm of `detect_block_type`. -/
def semCommandCond (trimmed : List Char) : Bool :=
  startsWithL trimmed (cs "$") || startsWithL trimmed (cs ">")

/-- `SemanticBlockParser::detect_block_type`. -/
def detect_block_type (line : List Char) : Option BlockType :=
  let trimmed := rustTrim line
  if trimmed.isEmpty then none
  else
    match semToolDetect trimmed with
    | some bt => some bt
    | none =>
      if semQuestionCond trimmed then some .Question
      else if semErrorCond trimmed then some .Error
      else if semSuccessCond trimmed then some (.ToolOutput (cs "unknown") true)
      else if semDiffCond trimmed then some (.Diff none)
      else if semCommandCond trimmed then some (.Command (rustTrim (trimmed.drop 1)))
      else some .Text

/-- The block types collapsed by default when long, per `finish_current_block`. -/
def collapsibleType : BlockType → Bool
  | .Code _ => true
  | .ToolOutput _ _ => true
  | .CommandOutput _ => true
  | .FileContent _ => true
  | _ => false

/-- `SemanticBlockParser::start_block`. -/
def startBlock (bt : BlockType) (st : SemState) : SemState :=
  { st with block_counter := st.block_counter + 1,
            current_block := some ⟨ st.block_counter + 1, bt, [], 0 ⟩ }

/-- `SemanticBlockParser::finish_current_block`. -/
def finishCurrentBlock (st : SemState) : Option SemanticBlock × SemState :=
  match st.current_block with
  | none => (none, st)
  | some p =>
    (some ⟨ p.id, p.block_type, p.content, p.start_time, true,
            collapsibleType p.block_type && decide ((rustLines p.content).length > 10) ⟩,
     { st with current_block := none })

/-- Content accumulation into the current block (newline-joined). -/
def appendToCurrent (st : SemState) (line : List Char) : SemState :=
  match st.current_block with
  | none => st
  | some p =>
    let newContent := if p.content.isEmpty then line else p.content ++ '\n' :: line
    { st with current_block := some ({ p with content := newContent }) }

/-- One iteration of the line loop in `SemanticBlockParser::parse`. -/
def processLine (st : SemState) (line : List Char) : List SemanticBlock × SemState :=
  if startsWithL (rustTrim line) (cs "```") then
    if st.in_code_fence then
      let r := finishCurrentBlock st
      (r.1.toList, { r.2 with in_code_fence := false, code_language := none })
    else
      let r := finishCurrentBlock st
      let langPart := (rustTrim line).drop 3
      let lang : Option (List Char) := if langPart.isEmpty then none else some langPart
      let st2 := { r.2 with in_code_fence := true, code_language := lang }
      (r.1.toList, startBlock (.Code lang) st2)
  else if st.in_code_fence then
    ([], appendToCurrent st line)
  else
    match detect_block_type line with
    | none => ([], st)
    | some bt =>
      let shouldFinish :=
        match st.current_block with
        | some cur => !sameDiscr cur.block_type bt
        | none => false
      let r := if shouldFinish then finishCurrentBlock st else (none, st)
      let st2 := if r.2.current_block.isNone then startBlock bt r.2 else r.2
      (r.1.toList, appendToCurrent st2 line)

/-- The line loop of `SemanticBlockParser::parse`. -/
def processLines (st : SemState) : List (List Char) → List SemanticBlock × SemState
  | [] => ([], st)
  | l :: ls =>
    let r := processLine st l
    let r2 := processLines r.2 ls
    (r.1 ++ r2.1, r2.2)

/-- The `processed_len` accumulator of `SemanticBlockParser::parse`
(byte length of each trimmed line plus one). -/
def processedLenOf (lns : List (List Char)) : Nat :=
  lns.foldl (fun a l => a + (utf8Len l + 1)) 0

/-- `SemanticBlockParser::parse`: strip ANSI, append to the buffer, process
every line `str::lines` yields (including a trailing line with no
newline), then drop `processed_len` bytes from the front of the buffer
when that is in range — the byte slice panics (`none`) off a character
boundary. -/
def semParse (st : SemState) (output : List Char) :
    Option (List SemanticBlock × SemState) :=
  let clean := stripAnsi output
  let st := { st with buffer := st.buffer ++ clean }
  let lns := rustLines st.buffer
  let r := processLines st lns
  let pl := processedLenOf lns
  if 0 < pl ∧ pl ≤ utf8Len r.2.buffer then
    match drainBytes pl r.2.buffer with
    | none => none
    | some rest2 => some (r.1, { r.2 with buffer := rest2 })
  else some (r.1, r.2)

/-- `SemanticBlockParser::flush`. -/
def semFlush (st : SemState) : Option SemanticBlock × SemState := finishCurrentBlock st

/-- All blocks a session's segmenter emits for a chunk sequence followed by
the end-of-stream flush; a panic kills the reader thread, so no block of
the panicking call (nor any later one, nor the flush) is emitted. -/
def runSemAux (st : SemState) : List (List Char) → List SemanticBlock
  | [] => (semFlush st).1.toList
  | c :: rest =>
    match semParse st c with
    | none => []
    | some r => r.1 ++ runSemAux r.2 rest

/-- Blocks emitted for a chunk sequence from a fresh segmenter. -/
def runSem (chunks : List (List Char)) : List SemanticBlock := runSemAux initSem chunks

/-- Ids of a block list, in emission order. -/
def idsOf (bs : List SemanticBlock) : List Nat := bs.map (·.id)

/-! ## Reader loop and registry (`pty/mod.rs`) -/

/-- One frontend event of the reader thread. -/
inductive Event where
  | raw (data : List Char)
  | stateChange (info : ClaudeStateInfo)
  | block (b : SemanticBlock)
deriving DecidableEq, Repr

/-- One iteration of the reader loop in `PtyManager::spawn` for a chunk that
was read and UTF-8-decoded: the emitted events in order, and the parser
states after the iteration (`none` when a parser panicked, which kills the
thread after the events already emitted). -/
def readerStep (cst : ClaudeParserState) (sst : SemState) (data : List Char) :
    List Event × Option (ClaudeParserState × SemState) :=
  match claudeParse cst data with
  | none => ([], none)
  | some cr =>
    let sEvs : List Event :=
      match cr.1 with
      | some info => [.stateChange info]
      | none => []
    match semParse sst data with
    | none => (sEvs, none)
    | some sr => (sEvs ++ sr.1.map .block ++ [.raw data], some (cr.2, sr.2))

/-- The PTY registry: the set of registered session ids (each entry's pty
handles carry no further state relevant here). -/
structure PtyManager where
  ptys : List String
deriving DecidableEq, Repr

/-- `PtyManager::kill`: remove the entry if present (ignoring the result of
killing the child) and return `Ok(())` unconditionally. `HashMap` keys are
unique, so removal is modelled by filtering the id out. -/
def PtyManager.kill (m : PtyManager) (id : String) : Except String Unit × PtyManager :=
  (Except.ok (), ⟨ m.ptys.filter (fun k => k ≠ id) ⟩)

/-! ## Derived notions used by the statements -/

/-- Number of open (in-progress) blocks: 0 or 1. -/
def openCount (st : SemState) : Nat := if st.current_block.isSome then 1 else 0

/-- The id the segmenter will emit next: the open block's id if one is open
(it is emitted before any newer one), else the id the next `start_block`
will allocate. -/
def nextId (st : SemState) : Nat := st.block_counter + 1 - openCount st

/-- Block types the segmenter can actually produce: everything except
`Thinking`, `FileContent` and `CommandOutput`. -/
def allowedBT : BlockType → Bool
  | .Thinking => false
  | .FileContent _ => false
  | .CommandOutput _ => false
  | _ => true

/-- Internal segmenter invariant: an open block carries the current counter
value as its id, and a producible type. -/
def InvSem (st : SemState) : Prop :=
  ∀ p, st.current_block = some p → p.id = st.block_counter ∧ allowedBT p.block_type = true

/-- The exact condition under which the idle branch of `detect_state` fires:
the prompt pre-check (or a blank-chunk streak above 3) conjoined with the
inner prompt-pattern check. -/
def idleCond (cb : List Char) (nc : Nat) : Bool :=
  (detect_prompt cb || decide (nc > 3)) && idleInner cb

/-- A parser state whose retained buffer is `">"`, used to exercise the idle
branch. -/
def c6St : ClaudeParserState := ⟨ cs ">", initClaudeInfo, false, 0 ⟩

/-- The state info `ClaudeStateParser::parse` reports for the chunk
`"Error:"` from a fresh parser. -/
def c5ResInfo : ClaudeStateInfo := ⟨ .Error, none, none, none, false ⟩

/-- The parser state after feeding `"Error:"` to a fresh parser. -/
def c5ResState : ClaudeParserState := ⟨ cs "Error:", c5ResInfo, false, 0 ⟩

/-! ## Helper lemmas -/

/-- The escape character never survives stripping, in either mode. -/
theorem esc_not_mem (m : Bool) (l : List Char) : '\x1b' ∉ stripAnsiGo m l := by
  induction m, l using stripAnsiGo.induct with
  | case1 m => simp [stripAnsiGo]
  | case2 c rest h ih => simp [stripAnsiGo, h, ih]
  | case3 c rest h ih => simp [stripAnsiGo, h, ih]
  | case4 rest ih => simp [stripAnsiGo, ih]
  | case5 rest h ih => simp [stripAnsiGo, h, ih]
  | case6 c rest h1 h2 ih =>
    simp [stripAnsiGo, h1, h2, ih]
    exact fun he => h2 he.symm

/-- Stripping an escape-free text is the identity. -/
theorem stripAnsiGo_no_esc (l : List Char) (h : ∀ c ∈ l, c ≠ '\x1b') :
    stripAnsiGo false l = l := by
  induction l with
  | nil => rfl
  | cons c rest ih =>
    have hc : c ≠ '\x1b' := h c (List.mem_cons_self c rest)
    have hr := ih (fun d hd => h d (List.mem_cons_of_mem c hd))
    simp [stripAnsiGo, hc, hr]

/-- Singleton interval. -/
theorem range'_one (s : Nat) : List.range' s 1 = [s] := rfl

/-- The tool arms of `detect_block_type` only ever yield `Tool` blocks. -/
theorem semToolDetect_tool (t : List Char) (bt : BlockType)
    (h : semToolDetect t = some bt) : ∃ n, bt = .Tool n := by
  unfold semToolDetect at h
  repeat' split at h
  all_goals first
    | (injection h with h; exact ⟨ _, h.symm ⟩)
    | exact absurd h (by simp)

/-- Line classification only yields producible block types. -/
theorem detect_allowed (line : List Char) (bt : BlockType)
    (h : detect_block_type line = some bt) : allowedBT bt = true := by
  unfold detect_block_type at h
  dsimp only at h
  split at h
  · exact absurd h (by simp)
  · split at h
    next bt2 hst =>
      injection h with h
      obtain ⟨ n, hn ⟩ := semToolDetect_tool _ _ hst
      rw [← h, hn]
      rfl
    next hst =>
      repeat' split at h
      all_goals (injection h with h; subst h; rfl)

/-- Full accounting for `finish_current_block`: it empties the slot, keeps the
counter, emits exactly the ids `nextId` promises, and only producible types. -/
theorem finish_spec (st : SemState) (hg : InvSem st) :
    InvSem (finishCurrentBlock st).2 ∧
    (finishCurrentBlock st).2.current_block = none ∧
    (finishCurrentBlock st).2.block_counter = st.block_counter ∧
    (finishCurrentBlock st).2.in_code_fence = st.in_code_fence ∧
    idsOf (finishCurrentBlock st).1.toList =
      List.range' (nextId st) (finishCurrentBlock st).1.toList.length ∧
    nextId (finishCurrentBlock st).2 = nextId st + (finishCurrentBlock st).1.toList.length ∧
    (∀ b ∈ (finishCurrentBlock st).1.toList, allowedBT b.block_type = true) := by
  cases hcb : st.current_block with
  | none =>
    simp [finishCurrentBlock, hcb, InvSem, nextId, openCount, idsOf]
  | some p =>
    obtain ⟨ hid, hbt ⟩ := hg p hcb
    simp [finishCurrentBlock, hcb, InvSem, nextId, openCount, idsOf, hbt, hid, range'_one]

/-- With no open block the next id is the successor of the counter. -/
theorem nextId_of_none (s : SemState) (h : s.current_block = none) :
    nextId s = s.block_counter + 1 := by
  simp [nextId, openCount, h]

/-- `start_block` opens a well-formed block and fixes the next id. -/
theorem start_spec (bt : BlockType) (s : SemState) (hbt : allowedBT bt = true) :
    InvSem (startBlock bt s) ∧ nextId (startBlock bt s) = s.block_counter + 1 := by
  constructor
  · intro p hp
    simp only [startBlock, Option.some.injEq] at hp
    rw [← hp]
    exact ⟨ rfl, hbt ⟩
  · simp [startBlock, nextId, openCount]

/-- Appending content changes neither the invariant nor the next id. -/
theorem append_spec (st : SemState) (line : List Char) (hg : InvSem st) :
    InvSem (appendToCurrent st line) ∧
    nextId (appendToCurrent st line) = nextId st := by
  cases hcb : st.current_block with
  | none => simp [appendToCurrent, hcb, InvSem, nextId, openCount]
  | some p =>
    obtain ⟨ hid, hbt ⟩ := hg p hcb
    simp [appendToCurrent, hcb, InvSem, nextId, openCount]
    exact ⟨ hid, hbt ⟩

/-- One line step: the blocks it emits carry exactly the consecutive ids
starting at `nextId`, of producible types, and the invariant is preserved. -/
theorem processLine_spec (st : SemState) (line : List Char) (hg : InvSem st) :
    InvSem (processLine st line).2 ∧
    idsOf (processLine st line).1 =
      List.range' (nextId st) (processLine st line).1.length ∧
    nextId (processLine st line).2 = nextId st + (processLine st line).1.length ∧
    (∀ b ∈ (processLine st line).1, allowedBT b.block_type = true) := by
  obtain ⟨ g1, gcb, gbc, gfence, gids, gnext, gall ⟩ := finish_spec st hg
  unfold processLine
  split
  · split
    · exact ⟨ g1, gids, gnext, gall ⟩
    · refine ⟨ (start_spec _ _ ?_).1, gids, ?_, gall ⟩
      · rfl
      · show ((finishCurrentBlock st).2.block_counter + 1 : Nat) =
          nextId st + (finishCurrentBlock st).1.toList.length
        rw [← nextId_of_none (finishCurrentBlock st).2 gcb]
        exact gnext
  · split
    · obtain ⟨ a1, a2 ⟩ := append_spec st line hg
      exact ⟨ a1, rfl, a2, by simp ⟩
    · split
      · exact ⟨ hg, rfl, rfl, by simp ⟩
      · next bt hdt =>
        have hba := detect_allowed line bt hdt
        cases hcb : st.current_block with
        | none =>
          dsimp only
          split
          next hcontra => simp at hcontra
          next =>
            split
            next hisNone =>
              obtain ⟨ a1, a2 ⟩ := append_spec (startBlock bt st) line (start_spec bt st hba).1
              refine ⟨ a1, rfl, ?_, by simp ⟩
              show nextId (appendToCurrent (startBlock bt st) line) = nextId st + 0
              rw [a2, (start_spec bt st hba).2, ← nextId_of_none st hcb]
              omega
            next hisNone => simp [hcb] at hisNone
        | some cur =>
          dsimp only
          split
          next hsd =>
            split
            next hisNone =>
              obtain ⟨ a1, a2 ⟩ := append_spec (startBlock bt (finishCurrentBlock st).2) line
                (start_spec bt (finishCurrentBlock st).2 hba).1
              refine ⟨ a1, gids, ?_, gall ⟩
              show nextId (appendToCurrent (startBlock bt (finishCurrentBlock st).2) line) =
                nextId st + (finishCurrentBlock st).1.toList.length
              rw [a2, (start_spec bt (finishCurrentBlock st).2 hba).2,
                ← nextId_of_none (finishCurrentBlock st).2 gcb]
              exact gnext
            next hisNone => simp [gcb] at hisNone
          next hsd =>
            split
            next hisNone => simp [hcb] at hisNone
            next =>
              obtain ⟨ a1, a2 ⟩ := append_spec st line hg
              refine ⟨ a1, rfl, ?_, by simp ⟩
              show nextId (appendToCurrent st line) = nextId st + 0
              rw [a2]
              omega

/-- Ids of concatenated emissions. -/
theorem idsOf_append (a b : List SemanticBlock) : idsOf (a ++ b) = idsOf a ++ idsOf b :=
  List.map_append _ a b

/-- The line loop emits exactly the consecutive ids starting at `nextId`. -/
theorem processLines_spec (lns : List (List Char)) (st : SemState) (hg : InvSem st) :
    InvSem (processLines st lns).2 ∧
    idsOf (processLines st lns).1 =
      List.range' (nextId st) (processLines st lns).1.length ∧
    nextId (processLines st lns).2 = nextId st + (processLines st lns).1.length ∧
    (∀ b ∈ (processLines st lns).1, allowedBT b.block_type = true) := by
  induction lns generalizing st with
  | nil => exact ⟨ hg, rfl, rfl, fun b hb => absurd hb (List.not_mem_nil b) ⟩
  | cons l ls ih =>
    obtain ⟨ p1, p2, p3, p4 ⟩ := processLine_spec st l hg
    obtain ⟨ q1, q2, q3, q4 ⟩ := ih (processLine st l).2 p1
    dsimp only [processLines]
    refine ⟨ q1, ?_, ?_, ?_ ⟩
    · rw [idsOf_append, p2, q2, p3, List.range'_append_1, List.length_append, Nat.add_comm]
    · rw [q3, p3, List.length_append]
      omega
    · intro b hb
      rcases List.mem_append.mp hb with h | h
      · exact p4 b h
      · exact q4 b h

/-- A successful `parse` call emits exactly the consecutive ids starting at
`nextId`, of producible types, and preserves the invariant. -/
theorem semParse_spec (st : SemState) (out : List Char) (hg : InvSem st)
    (bs : List SemanticBlock) (st2 : SemState)
    (hp : semParse st out = some (bs, st2)) :
    InvSem st2 ∧ idsOf bs = List.range' (nextId st) bs.length ∧
    nextId st2 = nextId st + bs.length ∧
    (∀ b ∈ bs, allowedBT b.block_type = true) := by
  have hg2 : InvSem { st with buffer := st.buffer ++ stripAnsi out } := fun p hp2 => hg p hp2
  obtain ⟨ p1, p2, p3, p4 ⟩ :=
    processLines_spec (rustLines (st.buffer ++ stripAnsi out))
      { st with buffer := st.buffer ++ stripAnsi out } hg2
  simp only [semParse] at hp
  split at hp
  · split at hp
    · exact absurd hp (by simp)
    · next rest2 hdrain =>
      rw [Option.some.injEq, Prod.mk.injEq] at hp
      obtain ⟨ hbs, hst2 ⟩ := hp
      subst hbs
      subst hst2
      exact ⟨ fun p hp2 => p1 p hp2, p2, p3, p4 ⟩
  · rw [Option.some.injEq, Prod.mk.injEq] at hp
    obtain ⟨ hbs, hst2 ⟩ := hp
    subst hbs
    subst hst2
    exact ⟨ p1, p2, p3, p4 ⟩

/-- Over a whole run (chunks then flush, stopping at a panic), the emitted ids
are exactly consecutive from `nextId`, and every type is producible. -/
theorem runSemAux_spec (chunks : List (List Char)) (st : SemState) (hg : InvSem st) :
    idsOf (runSemAux st chunks) =
      List.range' (nextId st) (runSemAux st chunks).length ∧
    (∀ b ∈ runSemAux st chunks, allowedBT b.block_type = true) := by
  induction chunks generalizing st with
  | nil =>
    obtain ⟨ g1, gcb, gbc, gfence, gids, gnext, gall ⟩ := finish_spec st hg
    exact ⟨ gids, gall ⟩
  | cons c rest ih =>
    dsimp only [runSemAux]
    cases hp : semParse st c with
    | none => simp [idsOf]
    | some r =>
      obtain ⟨ bs, st2 ⟩ := r
      obtain ⟨ s1, s2, s3, s4 ⟩ := semParse_spec st c hg bs st2 hp
      obtain ⟨ i1, i2 ⟩ := ih st2 s1
      constructor
      · rw [idsOf_append, s2, i1, s3, List.range'_append_1, List.length_append, Nat.add_comm]
      · intro b hb
        rcases List.mem_append.mp hb with h | h
        · exact s4 b h
        · exact i2 b h

/-- The fresh segmenter satisfies the invariant. -/
theorem invSem_init : InvSem initSem := fun _ hp => nomatch hp

/-! ## Claim theorems -/

/-- Claim C1, counterexample: the reader loop does not emit the raw chunk
first. For the chunk `"Error: x\n"` from fresh parsers it emits the
state-change event first and the raw chunk last. -/
theorem C1_counterexample :
    (readerStep initClaude initSem (cs "Error: x\n")).1 =
      [ .stateChange ⟨ .Error, none, none, none, false ⟩, .raw (cs "Error: x\n") ] := by
  decide

/-- Claim C1, as amended: for every chunk on which neither parser panics, the
events derived from that chunk are emitted in the fixed order state-change
event (if any), then semantic-block events (zero or more), then the raw
chunk last. -/
theorem C1_event_order (cst : ClaudeParserState) (sst : SemState) (data : List Char)
    (h : (readerStep cst sst data).2.isSome = true) :
    ∃ sEvs bEvs, (readerStep cst sst data).1 = sEvs ++ bEvs ++ [Event.raw data] ∧
      (∀ e ∈ sEvs, ∃ i, e = Event.stateChange i) ∧
      (∀ e ∈ bEvs, ∃ b, e = Event.block b) := by
  unfold readerStep at h ⊢
  cases hc : claudeParse cst data with
  | none => simp [hc] at h
  | some cr =>
    cases hs : semParse sst data with
    | none => simp [hc, hs] at h
    | some sr =>
      dsimp only
      refine ⟨ _, _, rfl, ?_, ?_ ⟩
      · cases cr.1 with
        | none => simp
        | some i => simp
      · intro e he
        rcases List.mem_map.mp he with ⟨ b, hb, rfl ⟩
        exact ⟨ b, rfl ⟩

/-- Claim C1, witness: the amended ordering at the concrete chunk
`"Error: x\n"` from fresh parsers. -/
theorem C1_event_order_witness :
    ∃ sEvs bEvs,
      (readerStep initClaude initSem (cs "Error: x\n")).1 =
        sEvs ++ bEvs ++ [Event.raw (cs "Error: x\n")] ∧
      (∀ e ∈ sEvs, ∃ i, e = Event.stateChange i) ∧
      (∀ e ∈ bEvs, ∃ b, e = Event.block b) :=
  C1_event_order initClaude initSem (cs "Error: x\n") (by decide)

set_option maxRecDepth 100000 in
/-- Claim C2: refuted — both parsers can panic. `ClaudeStateParser::parse`
panics on a single 2049-byte chunk of 683 braille glyphs (the 2 KB trim
drains to byte 1, inside the first character), and
`SemanticBlockParser::parse` panics on `"x\r\ny\r\nz⠋\n"` (the
`processed_len` byte slice at 9 falls inside the multi-byte glyph). -/
theorem C2_parser_panics :
    claudeParse initClaude (List.replicate 683 '⠋') = none ∧
    semParse initSem (cs "x\r\ny\r\nz⠋\n") = none := by
  constructor
  · decide
  · decide

/-- Claim C3: refuted — a trailing line with no newline is classified at
once and re-processed by the next call. Feeding `"hello"` then
`" world\n"` yields one `Text` block whose content duplicates `hello`,
instead of the single line `"hello world"`. -/
theorem C3_partial_line_duplicated :
    runSem [cs "hello", cs " world\n"] =
      [⟨ 1, .Text, cs "hello\nhello world", 0, true, false ⟩] := by
  decide

/-- Claim C4, counterexample: the rules differ. The short line `"a?"` is not
matched by the tool arms, is classified `Question` by the semantic parser,
yet fails the state classifier's per-line question rule (length 2 is not
above 10). -/
theorem C4_counterexample :
    detect_block_type (cs "a?") = some BlockType.Question ∧
    questionLineRule (cs "a?") = none := by
  decide

/-- Claim C4, as amended: outside a code fence, a non-blank line not matched
by the tool arms is classified `Question` iff its trimmed form ends in `?`
(with no minimum length) or starts with `Do you want`, `Would you like`,
`Should I`, or `May I` — `Can I` is absent, unlike the state classifier's
scan. -/
theorem C4_question_rule (line : List Char)
    (h1 : (rustTrim line).isEmpty = false)
    (h2 : semToolDetect (rustTrim line) = none) :
    detect_block_type line = some BlockType.Question ↔
      semQuestionCond (rustTrim line) = true := by
  by_cases hq : semQuestionCond (rustTrim line) = true
  · simp [detect_block_type, h1, h2, hq]
  · simp only [Bool.not_eq_true] at hq
    simp only [detect_block_type, h1, h2, hq, Bool.false_eq_true, if_false]
    constructor
    · intro hcontra
      repeat' split at hcontra
      all_goals simp_all
    · intro hcontra
      simp at hcontra

/-- Claim C4, witness: the amended rule at the concrete line
`"Would you like tea?"`. -/
theorem C4_question_rule_witness :
    detect_block_type (cs "Would you like tea?") = some BlockType.Question ↔
      semQuestionCond (rustTrim (cs "Would you like tea?")) = true :=
  C4_question_rule (cs "Would you like tea?") (by decide) (by decide)

/-- Claim C5: a completed `ClaudeStateParser::parse` call reports the new
state info iff the newly computed state differs from the immediately prior
one, and what it reports is exactly the single current state it then
holds. -/
theorem C5_state_change_iff (st : ClaudeParserState) (output : List Char)
    (r : Option ClaudeStateInfo × ClaudeParserState)
    (h : claudeParse st output = some r) :
    (r.1.isSome ↔ r.2.current_state.state ≠ st.current_state.state) ∧
    (∀ info, r.1 = some info → info = r.2.current_state) := by
  simp only [claudeParse] at h
  split at h
  next => exact absurd h (by simp)
  next buf2 hdrain =>
    rw [Option.some.injEq] at h
    subst h
    by_cases heq : (detect_state { st with buffer := buf2 } output).current_state.state =
        st.current_state.state
    · simp [heq]
    · simp [heq]

/-- Claim C5, witness: feeding `"Error:"` to a fresh parser completes,
changes the state from `Idle` to `Error`, and reports exactly the new
info. -/
theorem C5_state_change_iff_witness :
    (((some c5ResInfo, c5ResState) : Option ClaudeStateInfo × ClaudeParserState).1.isSome ↔
      ((some c5ResInfo, c5ResState) :
        Option ClaudeStateInfo × ClaudeParserState).2.current_state.state ≠
        initClaude.current_state.state) ∧
    (∀ info,
      ((some c5ResInfo, c5ResState) : Option ClaudeStateInfo × ClaudeParserState).1 =
        some info →
      info = ((some c5ResInfo, c5ResState) :
        Option ClaudeStateInfo × ClaudeParserState).2.current_state) :=
  C5_state_change_iff initClaude (cs "Error:") (some c5ResInfo, c5ResState) (by decide)

/-- Claim C6, counterexample: four consecutive blank-only chunks alone do not
produce `Idle` with `awaiting_input` — the inner prompt-pattern check also
has to hold; and a buffer ending in `"$ "` alone does not either, because
the outer pre-check right-trims the buffer first. In both runs
`awaiting_input` stays `false`. -/
theorem C6_counterexample :
    runClaude [cs "\n", cs "\n", cs "\n", cs "\n"] =
      some ⟨ cs "\n\n\n\n", ⟨ .Idle, none, none, none, false ⟩, false, 4 ⟩ ∧
    runClaude [cs "$ "] =
      some ⟨ cs "$ ", ⟨ .Idle, none, none, none, false ⟩, false, 0 ⟩ := by
  exact ⟨ by decide, by decide ⟩

/-- Claim C6, as amended: when no higher-precedence detector fires, the state
becomes `Idle` with `awaiting_input=true` and cleared `tool_name` and
`question` iff both the outer pre-check (right-trimmed buffer prompt
patterns, or a blank-chunk streak above 3) and the inner check (buffer
contains `>` or `claude>`, or ends in `"$ "` or `"% "`) hold; otherwise
the state info is left unchanged. -/
theorem C6_idle_rule (st : ClaudeParserState) (output : List Char)
    (h1 : detect_tool_use (stripAnsi output) = none)
    (h2 : thinkingCond (stripAnsi output) = false)
    (h3 : detect_question (stripAnsi st.buffer) = none)
    (h4 : completeCond (stripAnsi output) = false)
    (h5 : errorCond (stripAnsi output) output = false)
    (h6 : writingCond (stripAnsi output) = false) :
    (idleCond (stripAnsi st.buffer) (updNl st.newline_count output) = true →
      (detect_state st output).current_state =
        ⟨ .Idle, none, none, st.current_state.progress, true ⟩) ∧
    (idleCond (stripAnsi st.buffer) (updNl st.newline_count output) = false →
      (detect_state st output).current_state = st.current_state) := by
  unfold detect_state
  dsimp only
  rw [h1, h2, h3, h4, h5, h6]
  by_cases hP : detect_prompt (stripAnsi st.buffer) = true ∨ 3 < updNl st.newline_count output
  · have hx : (detect_prompt (stripAnsi st.buffer) ||
        decide (updNl st.newline_count output > 3)) = true := by
      rcases hP with h | h
      · simp [h]
      · simp [h]
    constructor
    · intro hi
      rw [idleCond, hx, Bool.true_and] at hi
      simp [hP, hi]
    · intro hi
      rw [idleCond, hx, Bool.true_and] at hi
      simp [hP, hi]
  · have hx : (detect_prompt (stripAnsi st.buffer) ||
        decide (updNl st.newline_count output > 3)) = false := by
      rcases Bool.eq_false_or_eq_true (detect_prompt (stripAnsi st.buffer)) with h | h
      · exact absurd (Or.inl h) hP
      · rcases Nat.lt_or_ge 3 (updNl st.newline_count output) with h2' | h2'
        · exact absurd (Or.inr h2') hP
        · simp [h, Nat.not_lt.mpr h2']
    constructor
    · intro hi
      rw [idleCond, hx, Bool.false_and] at hi
      exact absurd hi (by simp)
    · intro hi
      simp [hP]

/-- Claim C6, witness: the amended rule at a parser whose buffer is `">"` fed
the chunk `">"`, which reaches the idle branch and awaits input. -/
theorem C6_idle_rule_witness :
    (idleCond (stripAnsi c6St.buffer) (updNl c6St.newline_count (cs ">")) = true →
      (detect_state c6St (cs ">")).current_state =
        ⟨ .Idle, none, none, c6St.current_state.progress, true ⟩) ∧
    (idleCond (stripAnsi c6St.buffer) (updNl c6St.newline_count (cs ">")) = false →
      (detect_state c6St (cs ">")).current_state = c6St.current_state) :=
  C6_idle_rule c6St (cs ">") (by decide) (by decide) (by decide) (by decide)
    (by decide) (by decide)

/-- Claim C7: within one session, the ids of all blocks returned by `parse`
and `flush` are exactly `1, 2, 3, …` in emission order — in particular
they start at 1 and are strictly increasing. -/
theorem C7_block_ids (chunks : List (List Char)) :
    idsOf (runSem chunks) = List.range' 1 (runSem chunks).length ∧
    (idsOf (runSem chunks)).Pairwise (· < ·) := by
  have h := (runSemAux_spec chunks initSem invSem_init).1
  refine ⟨ h, ?_ ⟩
  show (idsOf (runSemAux initSem chunks)).Pairwise (· < ·)
  rw [h]
  exact List.pairwise_lt_range' (nextId initSem) (runSemAux initSem chunks).length

/-- Claim C8: `strip_ansi_codes` is idempotent — stripping twice equals
stripping once, for every input. -/
theorem C8_strip_ansi_idempotent (s : List Char) :
    stripAnsi (stripAnsi s) = stripAnsi s :=
  stripAnsiGo_no_esc (stripAnsiGo false s) (fun c hc he => esc_not_mem false s (he ▸ hc))

/-- Claim C9: `PtyManager::kill` always returns success — also on an id that
is not registered, in which case the registry is unchanged — and killing
the same id twice is safe, the second call removing nothing. -/
theorem C9_kill_idempotent (m : PtyManager) (id : String) :
    (m.kill id).1 = Except.ok () ∧
    ((m.kill id).2.kill id).1 = Except.ok () ∧
    ((m.kill id).2.kill id).2 = (m.kill id).2 ∧
    (id ∉ m.ptys → (m.kill id).2 = m) := by
  refine ⟨ rfl, rfl, ?_, ?_ ⟩
  · simp [PtyManager.kill, List.filter_filter]
  · intro h
    have hf : m.ptys.filter (fun k => decide (k ≠ id)) = m.ptys := by
      refine List.filter_eq_self.mpr (fun a ha => ?_)
      simp only [decide_eq_true_eq]
      intro he
      exact h (he ▸ ha)
    cases m with
    | mk l => simp only [PtyManager.kill, PtyManager.mk.injEq]; exact hf

/-- Claim C9, witness: killing the unregistered id `"b"` in a registry
holding `"a"` twice over. -/
theorem C9_kill_idempotent_witness :
    ((PtyManager.mk ["a"]).kill "b").1 = Except.ok () ∧
    (((PtyManager.mk ["a"]).kill "b").2.kill "b").1 = Except.ok () ∧
    (((PtyManager.mk ["a"]).kill "b").2.kill "b").2 = ((PtyManager.mk ["a"]).kill "b").2 ∧
    ("b" ∉ (PtyManager.mk ["a"]).ptys → ((PtyManager.mk ["a"]).kill "b").2 = PtyManager.mk ["a"]) :=
  C9_kill_idempotent (PtyManager.mk ["a"]) "b"

/-- Claim C10: the segmenter never emits a block typed `Thinking`,
`FileContent` or `CommandOutput` — every block of every run has one of the
eight producible types. -/
theorem C10_block_types (chunks : List (List Char)) :
    (runSem chunks).all (fun b => allowedBT b.block_type) = true := by
  rw [List.all_eq_true]
  intro b hb
  exact (runSemAux_spec chunks initSem invSem_init).2 b hb
